import Mathlib

/-!
# Verification of the python-can bus core (domologic/python-can)

Shallow embedding of the repository's core operations and proofs of the
specification's claims about them:

* `src/can/interfaces/socketcand_bus.py` — the ASCII frame codec
  (`convert_ascii_message_to_can_message`, `convert_can_message_to_ascii_message`)
  and `connect_to_server`;
* `src/pycanlib/CAN.py` — `Message.__init__` validation and the `_get_handle`
  registry deduplication;
* `src/can/bus.py` — the `BusABC` transmit-queue state (`write`, `shutdown`,
  `tx_thread`);
* `src/can/CAN.py` — the `BufferedReader` listener.

Python strings are embedded as `List Char`; machine integers as `Nat`/`Int`;
floats restricted to the decimal literals the wire protocol uses, as `ℚ`;
code that can raise returns `Except`.
-/

/-! ## Python string helpers

Models of the exact Python primitives the codec uses: `str.startswith`,
`str.endswith`, `str.removeprefix`, `str.removesuffix`, `str.split(" ", n)`,
`"{:x}"`/`"{:X}"` formatting, `int(s, 16)`, `float(s)` and
`bytearray.fromhex(s)`.
-/

/-- Python `s.startswith(p)`. -/
def startswith (p s : List Char) : Bool := p.isPrefixOf s

/-- Python `s.endswith(suf)`. -/
def endswith (suf s : List Char) : Bool := suf.isSuffixOf s

/-- Python `s.removeprefix(p)`: drop `p` from the front when it is a prefix,
otherwise return `s` unchanged. -/
def removePre (p s : List Char) : List Char :=
  if p.isPrefixOf s then s.drop p.length else s

/-- Python `s.removesuffix(suf)`: drop `suf` from the back when it is a suffix,
otherwise return `s` unchanged. -/
def removeSuf (suf s : List Char) : List Char :=
  if suf.isSuffixOf s then s.take (s.length - suf.length) else s

/-- Python `s.split(" ", maxsplit)`: split on single spaces, keeping empty
parts, performing at most `maxsplit` splits. -/
def pySplitSpace : Nat → List Char → List (List Char)
  | 0, cs => [cs]
  | m + 1, cs =>
    let rest := cs.dropWhile (fun c => !(c == ' '))
    if rest.isEmpty then [cs]
    else cs.takeWhile (fun c => !(c == ' ')) :: pySplitSpace m rest.tail

/-- The hex digit character for `d < 16`; uppercase letters when `upper`. -/
def hexDigit (upper : Bool) (d : Nat) : Char :=
  if d < 10 then Char.ofNat (48 + d)
  else if upper then Char.ofNat (55 + d) else Char.ofNat (87 + d)

/-- Little-endian hex digits of `n`, with `fuel ≥ n` steps available. -/
def hexRevGo (upper : Bool) : Nat → Nat → List Char
  | _, 0 => []
  | 0, _ + 1 => []
  | fuel + 1, m + 1 => hexDigit upper ((m + 1) % 16) :: hexRevGo upper fuel ((m + 1) / 16)

/-- Little-endian hex digits of `n` (empty for `n = 0`). -/
def toHexRev (upper : Bool) (n : Nat) : List Char := hexRevGo upper n n

/-- Python `"{:x}".format(n)` / `"{:X}".format(n)`: unpadded hex rendering. -/
def pyHexFmt (upper : Bool) (n : Nat) : List Char :=
  if n = 0 then ['0'] else (toHexRev upper n).reverse

/-- Python `"{:X}".format(n)`. -/
def pyHexUpper (n : Nat) : List Char := pyHexFmt true n

/-- Python `"{:x}".format(n)`. -/
def pyHexLower (n : Nat) : List Char := pyHexFmt false n

/-- Numeric value of a hex digit character, accepting both cases
(as Python `int(s, 16)` does). -/
def hexVal? (c : Char) : Option Nat :=
  if '0' ≤ c ∧ c ≤ '9' then some (c.toNat - 48)
  else if 'a' ≤ c ∧ c ≤ 'f' then some (c.toNat - 87)
  else if 'A' ≤ c ∧ c ≤ 'F' then some (c.toNat - 55)
  else none

/-- Accumulating hex parser over the digit characters. -/
def parseHexCore : Nat → List Char → Option Nat
  | acc, [] => some acc
  | acc, c :: t =>
    match hexVal? c with
    | none => none
    | some d => parseHexCore (16 * acc + d) t

/-- Python `int(s, 16)` on the plain hex-digit strings the wire grammar
produces (`none` models the `ValueError` raised on anything else). -/
def pyIntHex? (cs : List Char) : Option Nat :=
  if cs = [] then none else parseHexCore 0 cs

/-- Decimal value of a digit string. -/
def digitsVal (l : List Char) : Nat := l.foldl (fun a c => 10 * a + (c.toNat - 48)) 0

/-- Python `float(s)` on the simple decimal literals (`digits[.digits]`, with
an optional sign) that appear in the daemon's timestamp field; `none` models
the `ValueError` raised on anything unparsable. -/
def pyFloat? (cs : List Char) : Option ℚ :=
  let signed : Bool × List Char :=
    match cs with
    | '-' :: t => (true, t)
    | '+' :: t => (false, t)
    | t => (false, t)
  let body := signed.2
  let ip := body.takeWhile Char.isDigit
  let rest := body.dropWhile Char.isDigit
  let fprest : List Char × List Char :=
    match rest with
    | '.' :: t => (t.takeWhile Char.isDigit, t.dropWhile Char.isDigit)
    | t => ([], t)
  if fprest.2 = [] ∧ (ip ≠ [] ∨ fprest.1 ≠ []) then
    let v : ℚ := (digitsVal ip : ℚ) + (digitsVal fprest.1 : ℚ) / (10 ^ fprest.1.length : ℚ)
    some (if signed.1 then -v else v)
  else none

/-- Python `bytearray.fromhex(s)` on the space-free strings reachable here:
pairs of hex digits, one byte per pair; `none` models the `ValueError` on an
odd digit count or a non-hex character. -/
def pyFromHex? : List Char → Option (List Nat)
  | [] => some []
  | [_] => none
  | c1 :: c2 :: rest =>
    match hexVal? c1, hexVal? c2, pyFromHex? rest with
    | some d1, some d2, some bs => some ((16 * d1 + d2) :: bs)
    | _, _, _ => none

namespace Can

/-- Modelled from the spec: `can.Message` is not under `src/` (only the codec
that constructs and reads it is), so the Frame of spec §3 is embedded as a
plain record of the fields the codec touches — arbitration id, payload bytes,
declared length and timestamp. The codec stores and reads these fields
directly. -/
structure Message where
  timestamp : ℚ
  arbitration_id : Nat
  data : List Nat
  dlc : Nat
deriving DecidableEq

/-- The Python exceptions the decoder can raise. -/
inductive PyExc where
  | indexError
  | valueError
deriving DecidableEq

/-- `convert_ascii_message_to_can_message` of `socketcand_bus.py`:
an envelope-failing line logs a warning and returns `None` (`ok none`);
otherwise the interior is split into at most four fields, the first parsed as
hex id, the second as float timestamp, the third as a contiguous hex payload,
with `dlc` derived as the decoded byte count. `error` models the uncaught
`IndexError`/`ValueError` escaping the function. -/
def convert_ascii_message_to_can_message (ascii_message : List Char) :
    Except PyExc (Option Message) :=
  if !startswith "< frame ".toList ascii_message || !endswith " >".toList ascii_message then
    Except.ok none
  else
    let frame_string := removeSuf " >".toList (removePre "< frame ".toList ascii_message)
    let parts := pySplitSpace 3 frame_string
    match parts.get? 0 with
    | none => Except.error PyExc.indexError
    | some p0 =>
      match pyIntHex? p0 with
      | none => Except.error PyExc.valueError
      | some can_id =>
        match parts.get? 1 with
        | none => Except.error PyExc.indexError
        | some p1 =>
          match pyFloat? p1 with
          | none => Except.error PyExc.valueError
          | some ts =>
            match parts.get? 2 with
            | none => Except.error PyExc.indexError
            | some p2 =>
              match pyFromHex? p2 with
              | none => Except.error PyExc.valueError
              | some data =>
                Except.ok (some { timestamp := ts, arbitration_id := can_id,
                                  data := data, dlc := data.length })

/-- `convert_can_message_to_ascii_message` of `socketcand_bus.py`:
`f"< send {can_id:X} {length:X} {bytes_string} >"` with
`bytes_string = " ".join("{:x}".format(x) for x in data[0:length])`. -/
def convert_can_message_to_ascii_message (can_message : Message) : List Char :=
  let can_id := can_message.arbitration_id
  let data := can_message.data
  let length := can_message.dlc
  let bytes_string := List.intercalate [' '] ((data.take length).map pyHexLower)
  "< send ".toList ++ pyHexUpper can_id ++ [' '] ++ pyHexUpper length
    ++ [' '] ++ bytes_string ++ [' ', '>']

end Can

/-! ## Facts about the hex rendering and parsing helpers -/

lemma hexVal?_hexDigit (u : Bool) (d : Nat) (hd : d < 16) :
    hexVal? (hexDigit u d) = some d := by
  cases u <;> interval_cases d <;> decide

lemma hexDigit_ne_space (u : Bool) (d : Nat) (hd : d < 16) : hexDigit u d ≠ ' ' := by
  cases u <;> interval_cases d <;> decide

lemma hexDigit_eq_zero_iff (u : Bool) (d : Nat) (hd : d < 16) :
    hexDigit u d = '0' ↔ d = 0 := by
  cases u <;> interval_cases d <;> decide

lemma parseHexCore_append (l1 l2 : List Char) :
    ∀ acc, parseHexCore acc (l1 ++ l2) = (parseHexCore acc l1).bind (fun a => parseHexCore a l2) := by
  induction l1 with
  | nil => intro acc; rfl
  | cons c t ih =>
    intro acc
    simp only [List.cons_append, parseHexCore]
    cases hexVal? c with
    | none => rfl
    | some d => exact ih (16 * acc + d)

lemma parseHexCore_cons_nil (acc : Nat) (c : Char) (d : Nat) (h : hexVal? c = some d) :
    parseHexCore acc [c] = some (16 * acc + d) := by
  simp [parseHexCore, h]

lemma parseHexCore_hexRevGo (u : Bool) :
    ∀ (fuel n : Nat), n ≤ fuel → ∀ acc,
      parseHexCore acc ((hexRevGo u fuel n).reverse)
        = some (acc * 16 ^ (hexRevGo u fuel n).length + n) := by
  intro fuel
  induction fuel with
  | zero =>
    intro n hn acc
    interval_cases n
    simp [hexRevGo, parseHexCore]
  | succ f ih =>
    intro n hn acc
    match n with
    | 0 => simp [hexRevGo, parseHexCore]
    | m + 1 =>
      have hq : (m + 1) / 16 ≤ f := by
        have := Nat.div_lt_self (Nat.succ_pos m) (by norm_num : 1 < 16)
        omega
      have hmod : (m + 1) % 16 < 16 := Nat.mod_lt _ (by norm_num)
      simp only [hexRevGo, List.reverse_cons, List.length_cons]
      rw [parseHexCore_append, ih _ hq acc, Option.some_bind,
        parseHexCore_cons_nil _ _ _ (hexVal?_hexDigit u _ hmod)]
      congr 1
      have hdm : 16 * ((m + 1) / 16) + (m + 1) % 16 = m + 1 := Nat.div_add_mod (m + 1) 16
      have hpow : (16 : Nat) ^ ((hexRevGo u f ((m + 1) / 16)).length + 1)
          = 16 ^ (hexRevGo u f ((m + 1) / 16)).length * 16 := pow_succ 16 _
      have hsplit : acc * (16 ^ ((hexRevGo u f ((m + 1) / 16)).length + 1)) + (m + 1)
          = acc * (16 ^ (hexRevGo u f ((m + 1) / 16)).length * 16)
            + (16 * ((m + 1) / 16) + (m + 1) % 16) := by rw [hpow, hdm]
      rw [hsplit]
      ring

lemma hexRevGo_ne_nil (u : Bool) (fuel n : Nat) (hn : n ≠ 0) (hle : n ≤ fuel) :
    hexRevGo u fuel n ≠ [] := by
  match fuel, n with
  | 0, n => omega
  | f + 1, 0 => omega
  | f + 1, m + 1 => simp [hexRevGo]

lemma pyIntHex?_pyHexFmt (u : Bool) (n : Nat) : pyIntHex? (pyHexFmt u n) = some n := by
  by_cases h : n = 0
  · subst h; cases u <;> decide
  · unfold pyHexFmt
    rw [if_neg h]
    unfold pyIntHex?
    rw [if_neg (by simpa using hexRevGo_ne_nil u n n h le_rfl)]
    have := parseHexCore_hexRevGo u n n le_rfl 0
    unfold toHexRev
    rw [this]
    simp

lemma hexRevGo_nospace (u : Bool) :
    ∀ (fuel n : Nat), ' ' ∉ hexRevGo u fuel n := by
  intro fuel
  induction fuel with
  | zero => intro n; cases n <;> simp [hexRevGo]
  | succ f ih =>
    intro n
    cases n with
    | zero => simp [hexRevGo]
    | succ m =>
      simp only [hexRevGo, List.mem_cons, not_or]
      exact ⟨fun h => hexDigit_ne_space u _ (Nat.mod_lt _ (by norm_num)) h.symm, ih _⟩

lemma pyHexFmt_nospace (u : Bool) (n : Nat) : ' ' ∉ pyHexFmt u n := by
  unfold pyHexFmt
  by_cases h : n = 0
  · rw [if_pos h]; decide
  · rw [if_neg h]
    unfold toHexRev
    rw [List.mem_reverse]
    exact hexRevGo_nospace u n n

lemma hexRevGo_getLast (u : Bool) :
    ∀ (fuel n : Nat), n ≠ 0 → n ≤ fuel →
      ∃ d, d ≠ 0 ∧ d < 16 ∧ (hexRevGo u fuel n).getLast? = some (hexDigit u d) := by
  intro fuel
  induction fuel with
  | zero => intro n hn hle; omega
  | succ f ih =>
    intro n hn hle
    match n with
    | m + 1 =>
      by_cases hq : (m + 1) / 16 = 0
      · refine ⟨(m + 1) % 16, by omega, Nat.mod_lt _ (by norm_num), ?_⟩
        have hnil : hexRevGo u f ((m + 1) / 16) = [] := by
          rw [hq]; cases f <;> rfl
        show (hexDigit u ((m + 1) % 16) :: hexRevGo u f ((m + 1) / 16)).getLast?
          = some (hexDigit u ((m + 1) % 16))
        rw [hnil]
        rfl
      · have hqf : (m + 1) / 16 ≤ f := by
          have := Nat.div_lt_self (Nat.succ_pos m) (by norm_num : 1 < 16)
          omega
        obtain ⟨d, hd0, hd16, hlast⟩ := ih ((m + 1) / 16) hq hqf
        refine ⟨d, hd0, hd16, ?_⟩
        show (hexDigit u ((m + 1) % 16) :: hexRevGo u f ((m + 1) / 16)).getLast?
          = some (hexDigit u d)
        obtain ⟨c, t, hct⟩ := List.exists_cons_of_ne_nil (hexRevGo_ne_nil u f _ hq hqf)
        rw [hct, List.getLast?_cons_cons, ← hct, hlast]

lemma pyHexFmt_head_ne_zero (u : Bool) (n : Nat) (hn : n ≠ 0) :
    (pyHexFmt u n).head? ≠ some '0' := by
  unfold pyHexFmt
  rw [if_neg hn]
  unfold toHexRev
  rw [List.head?_reverse]
  obtain ⟨d, hd0, hd16, hlast⟩ := hexRevGo_getLast u n n hn le_rfl
  rw [hlast]
  intro h
  have hz : hexDigit u d = '0' := by injection h
  exact hd0 ((hexDigit_eq_zero_iff u d hd16).mp hz)

/-! ## Facts about splitting and stripping -/

lemma takeWhile_nospace : ∀ (a : List Char), ' ' ∉ a →
    a.takeWhile (fun c => !(c == ' ')) = a
  | [], _ => rfl
  | x :: t, h => by
    have hx : x ≠ ' ' := fun hh => h (hh ▸ List.mem_cons_self x t)
    have ht : ' ' ∉ t := fun hh => h (List.mem_cons_of_mem x hh)
    simp [List.takeWhile_cons, hx, takeWhile_nospace t ht]

lemma dropWhile_nospace : ∀ (a : List Char), ' ' ∉ a →
    a.dropWhile (fun c => !(c == ' ')) = []
  | [], _ => rfl
  | x :: t, h => by
    have hx : x ≠ ' ' := fun hh => h (hh ▸ List.mem_cons_self x t)
    have ht : ' ' ∉ t := fun hh => h (List.mem_cons_of_mem x hh)
    simp [List.dropWhile_cons, hx, dropWhile_nospace t ht]

lemma takeWhile_append_space : ∀ (a rest : List Char), ' ' ∉ a →
    (a ++ ' ' :: rest).takeWhile (fun c => !(c == ' ')) = a
  | [], rest, _ => by simp [List.takeWhile_cons]
  | x :: t, rest, h => by
    have hx : x ≠ ' ' := fun hh => h (hh ▸ List.mem_cons_self x t)
    have ht : ' ' ∉ t := fun hh => h (List.mem_cons_of_mem x hh)
    simp [List.takeWhile_cons, hx, takeWhile_append_space t rest ht]

lemma dropWhile_append_space : ∀ (a rest : List Char), ' ' ∉ a →
    (a ++ ' ' :: rest).dropWhile (fun c => !(c == ' ')) = ' ' :: rest
  | [], rest, _ => by simp [List.dropWhile_cons]
  | x :: t, rest, h => by
    have hx : x ≠ ' ' := fun hh => h (hh ▸ List.mem_cons_self x t)
    have ht : ' ' ∉ t := fun hh => h (List.mem_cons_of_mem x hh)
    simp [List.dropWhile_cons, hx, dropWhile_append_space t rest ht]

lemma pySplitSpace_succ_space (m : Nat) (a rest : List Char) (ha : ' ' ∉ a) :
    pySplitSpace (m + 1) (a ++ ' ' :: rest) = a :: pySplitSpace m rest := by
  simp only [pySplitSpace]
  rw [dropWhile_append_space a rest ha, takeWhile_append_space a rest ha]
  rfl

lemma pySplitSpace_succ_nospace (m : Nat) (a : List Char) (ha : ' ' ∉ a) :
    pySplitSpace (m + 1) a = [a] := by
  simp only [pySplitSpace]
  rw [dropWhile_nospace a ha]
  rfl

lemma pySplitSpace_three (a b c : List Char)
    (ha : ' ' ∉ a) (hb : ' ' ∉ b) (hc : ' ' ∉ c) :
    pySplitSpace 3 (a ++ ' ' :: (b ++ ' ' :: c)) = [a, b, c] := by
  calc pySplitSpace 3 (a ++ ' ' :: (b ++ ' ' :: c))
      = a :: pySplitSpace 2 (b ++ ' ' :: c) := pySplitSpace_succ_space 2 a _ ha
    _ = a :: (b :: pySplitSpace 1 c) := by rw [pySplitSpace_succ_space 1 b c hb]
    _ = [a, b, c] := by rw [pySplitSpace_succ_nospace 0 c hc]

lemma removePre_append (p s : List Char) : removePre p (p ++ s) = s := by
  unfold removePre
  rw [if_pos (List.isPrefixOf_iff_prefix.mpr (List.prefix_append p s)), List.drop_left]

lemma removeSuf_append (suf y : List Char) : removeSuf suf (y ++ suf) = y := by
  unfold removeSuf
  rw [if_pos (List.isSuffixOf_iff_suffix.mpr (List.suffix_append y suf)),
    List.length_append, Nat.add_sub_cancel, List.take_left]

/-! ## The inbound contiguous-hex payload rendering -/

/-- The inbound payload rendering of spec §4.5: each byte as exactly two
lowercase hex digits, concatenated with no separators. -/
def contiguousHex (bs : List Nat) : List Char :=
  (bs.map (fun b => [hexDigit false (b / 16), hexDigit false (b % 16)])).flatten

lemma contiguousHex_nospace : ∀ (bs : List Nat), (∀ b ∈ bs, b < 256) →
    ' ' ∉ contiguousHex bs
  | [], _ => by simp [contiguousHex]
  | b :: t, h => by
    have hb : b < 256 := h b (List.mem_cons_self b t)
    have ht : ∀ x ∈ t, x < 256 := fun x hx => h x (List.mem_cons_of_mem b hx)
    have h1 : b / 16 < 16 := Nat.div_lt_of_lt_mul (by omega)
    have h2 : b % 16 < 16 := Nat.mod_lt _ (by norm_num)
    show ' ' ∉ ([hexDigit false (b / 16), hexDigit false (b % 16)] ++ contiguousHex t)
    rw [List.mem_append]
    rintro (hmem | hmem)
    · simp only [List.mem_cons, List.not_mem_nil, or_false] at hmem
      rcases hmem with hmem | hmem
      · exact hexDigit_ne_space false _ h1 hmem.symm
      · exact hexDigit_ne_space false _ h2 hmem.symm
    · exact contiguousHex_nospace t ht hmem

lemma pyFromHex?_contiguousHex : ∀ (bs : List Nat), (∀ b ∈ bs, b < 256) →
    pyFromHex? (contiguousHex bs) = some bs
  | [], _ => rfl
  | b :: t, h => by
    have hb : b < 256 := h b (List.mem_cons_self b t)
    have ht : ∀ x ∈ t, x < 256 := fun x hx => h x (List.mem_cons_of_mem b hx)
    have h1 : b / 16 < 16 := Nat.div_lt_of_lt_mul (by omega)
    have h2 : b % 16 < 16 := Nat.mod_lt _ (by norm_num)
    show pyFromHex? (hexDigit false (b / 16) :: hexDigit false (b % 16) :: contiguousHex t)
      = some (b :: t)
    simp only [pyFromHex?, hexVal?_hexDigit false _ h1, hexVal?_hexDigit false _ h2,
      pyFromHex?_contiguousHex t ht]
    rw [Nat.div_add_mod b 16]

/-! ## Decoding a well-formed inbound frame line -/

lemma decode_wellformed (idStr tsStr hexStr : List Char) (n : Nat) (ts : ℚ) (bs : List Nat)
    (hid : ' ' ∉ idStr) (hts : ' ' ∉ tsStr) (hhex : ' ' ∉ hexStr)
    (hidp : pyIntHex? idStr = some n) (htsp : pyFloat? tsStr = some ts)
    (hhexp : pyFromHex? hexStr = some bs) :
    Can.convert_ascii_message_to_can_message
      ("< frame ".toList ++ (idStr ++ ' ' :: (tsStr ++ ' ' :: hexStr)) ++ [' ', '>'])
      = Except.ok (some ⟨ts, n, bs, bs.length⟩) := by
  have hassoc : "< frame ".toList ++ (idStr ++ ' ' :: (tsStr ++ ' ' :: hexStr)) ++ [' ', '>']
      = "< frame ".toList ++ ((idStr ++ ' ' :: (tsStr ++ ' ' :: hexStr)) ++ [' ', '>']) :=
    List.append_assoc _ _ _
  have hstart : startswith "< frame ".toList
      ("< frame ".toList ++ (idStr ++ ' ' :: (tsStr ++ ' ' :: hexStr)) ++ [' ', '>']) = true := by
    rw [hassoc]
    exact List.isPrefixOf_iff_prefix.mpr (List.prefix_append _ _)
  have hend : endswith " >".toList
      ("< frame ".toList ++ (idStr ++ ' ' :: (tsStr ++ ' ' :: hexStr)) ++ [' ', '>']) = true :=
    List.isSuffixOf_iff_suffix.mpr (List.suffix_append _ _)
  have hframe : removeSuf " >".toList (removePre "< frame ".toList
      ("< frame ".toList ++ (idStr ++ ' ' :: (tsStr ++ ' ' :: hexStr)) ++ [' ', '>']))
      = idStr ++ ' ' :: (tsStr ++ ' ' :: hexStr) := by
    rw [hassoc, removePre_append]
    exact removeSuf_append [' ', '>'] _
  unfold Can.convert_ascii_message_to_can_message
  rw [if_neg (by rw [hstart, hend]; decide)]
  simp only [hframe, pySplitSpace_three idStr tsStr hexStr hid hts hhex,
    List.get?, hidp, htsp, hhexp]

/-- The inbound `< frame ... >` line equivalent to a message's outbound
encoding: the same uppercase-hex id field the encoder emits, an arbitrary
well-formed timestamp field, and the first `dlc` payload bytes rendered per
the inbound contiguous-hex rule. -/
def inbound_equivalent (m : Can.Message) (tsStr : List Char) : List Char :=
  "< frame ".toList ++ pyHexUpper m.arbitration_id ++ [' '] ++ tsStr ++ [' ']
    ++ contiguousHex (m.data.take m.dlc) ++ [' ', '>']

/-- C1: for every CAN message whose dlc equals its payload length (payload
bytes being bytes), encoding with `convert_can_message_to_ascii_message` and
then decoding the equivalent inbound `< frame ... >` line (same id field as
the outbound encoding, payload rendered per the inbound contiguous-hex rule,
dlc derived as decoded byte count) with `convert_ascii_message_to_can_message`
yields a message with an equal arbitration id and equal payload bytes; the
timestamp field may hold any parseable float and need not round-trip. -/
theorem c1_ascii_roundtrip (m : Can.Message) (tsStr : List Char)
    (hdlc : m.dlc = m.data.length)
    (hbytes : ∀ b ∈ m.data, b < 256)
    (hts_nospace : ' ' ∉ tsStr)
    (hts_parse : (pyFloat? tsStr).isSome) :
    ∃ m' : Can.Message,
      Can.convert_ascii_message_to_can_message (inbound_equivalent m tsStr)
        = Except.ok (some m')
      ∧ m'.arbitration_id = m.arbitration_id ∧ m'.data = m.data := by
  obtain ⟨ts, hts⟩ := Option.isSome_iff_exists.mp hts_parse
  have htake : m.data.take m.dlc = m.data := by
    rw [hdlc]
    exact List.take_length m.data
  have hid_nospace : ' ' ∉ pyHexUpper m.arbitration_id := pyHexFmt_nospace true _
  have hhex_nospace : ' ' ∉ contiguousHex (m.data.take m.dlc) := by
    rw [htake]
    exact contiguousHex_nospace m.data hbytes
  have hhexp : pyFromHex? (contiguousHex (m.data.take m.dlc)) = some m.data := by
    rw [htake]
    exact pyFromHex?_contiguousHex m.data hbytes
  have hshape : inbound_equivalent m tsStr
      = "< frame ".toList
        ++ (pyHexUpper m.arbitration_id
             ++ ' ' :: (tsStr ++ ' ' :: contiguousHex (m.data.take m.dlc)))
        ++ [' ', '>'] := by
    simp [inbound_equivalent, List.append_assoc]
  refine ⟨⟨ts, m.arbitration_id, m.data, m.data.length⟩, ?_, rfl, rfl⟩
  rw [hshape]
  exact decode_wellformed _ _ _ _ _ _ hid_nospace hts_nospace hhex_nospace
    (pyIntHex?_pyHexFmt true m.arbitration_id) hts hhexp

theorem c1_witness :
    ∃ m' : Can.Message,
      Can.convert_ascii_message_to_can_message
        (inbound_equivalent ⟨0, 26, [0, 255], 2⟩ "0.0".toList) = Except.ok (some m')
      ∧ m'.arbitration_id = 26 ∧ m'.data = [0, 255] :=
  c1_ascii_roundtrip ⟨0, 26, [0, 255], 2⟩ "0.0".toList rfl (by decide) (by decide) (by decide)

/-- C3: the outbound encoding is exactly `"< send "`, the arbitration id in
uppercase unpadded hex, a space, the dlc in uppercase unpadded hex, a space,
the first dlc payload bytes each in lowercase hex separated by single spaces,
and a trailing `" >"`; unpaddedness is witnessed by the absence of a leading
`'0'` on every nonzero hex field. -/
theorem c3_outbound_wire_format (m : Can.Message) :
    Can.convert_can_message_to_ascii_message m
      = "< send ".toList ++ pyHexUpper m.arbitration_id ++ " ".toList
          ++ pyHexUpper m.dlc ++ " ".toList
          ++ List.intercalate " ".toList ((m.data.take m.dlc).map pyHexLower)
          ++ " >".toList
    ∧ (m.arbitration_id ≠ 0 → (pyHexUpper m.arbitration_id).head? ≠ some '0')
    ∧ (m.dlc ≠ 0 → (pyHexUpper m.dlc).head? ≠ some '0') :=
  ⟨rfl, fun h => pyHexFmt_head_ne_zero true _ h, fun h => pyHexFmt_head_ne_zero true _ h⟩

theorem c3_witness :
    Can.convert_can_message_to_ascii_message ⟨0, 26, [0, 255, 5], 3⟩
      = "< send 1A 3 0 ff 5 >".toList
    ∧ (pyHexUpper 26).head? ≠ some '0' :=
  ⟨rfl, (c3_outbound_wire_format ⟨0, 26, [0, 255, 5], 3⟩).2.1 (by norm_num)⟩

/-- C4: every inbound line failing the `< frame ... >` envelope check — it
does not start with `"< frame "` or does not end with `" >"` — decodes to the
no-frame result `None` and raises no exception. -/
theorem c4_malformed_returns_none (s : List Char)
    (h : (!startswith "< frame ".toList s || !endswith " >".toList s) = true) :
    Can.convert_ascii_message_to_can_message s = Except.ok none := by
  unfold Can.convert_ascii_message_to_can_message
  rw [if_pos h]

theorem c4_witness :
    Can.convert_ascii_message_to_can_message "garbage".toList = Except.ok none
    ∧ Can.convert_ascii_message_to_can_message "< frame 1A 0.0 ff".toList = Except.ok none :=
  ⟨c4_malformed_returns_none _ (by decide), c4_malformed_returns_none _ (by decide)⟩

/-- C9: a line that passes the envelope check but whose interior has fewer
than three space-separated fields raises an `IndexError` (here the
zero-payload frame `"< frame 1A 12.3 >"`), and one with a non-hex id field
raises a `ValueError`; neither returns a message or the no-frame result. -/
theorem c9_envelope_interior_raises :
    Can.convert_ascii_message_to_can_message "< frame 1A 12.3 >".toList
      = Except.error Can.PyExc.indexError
    ∧ Can.convert_ascii_message_to_can_message "< frame zz 1.0 ff >".toList
      = Except.error Can.PyExc.valueError :=
  ⟨rfl, rfl⟩

namespace Pycanlib

/-! ## pycanlib Message construction (`src/pycanlib/CAN.py`)

`LogMessage.__init__` validates the timestamp, then `Message.__init__`
validates `device_id`, `payload`, `dlc` and `flags` in that order, raising
`InvalidMessageParameterError(parameter_name, parameter_value, reason)` on
the first violation and storing every field unchanged on success. The
Python `isinstance` type checks cannot fail in this typed embedding; the
range checks are embedded exactly.
-/

/-- `InvalidMessageParameterError` of `pycanlib/CAN.py`: the offending
parameter's name, its value (rendered, as the exception's `__str__` does) and
the human-readable reason. -/
structure InvalidMessageParameterError where
  parameter_name : String
  parameter_value : String
  reason : String
deriving DecidableEq

/-- The stored fields of a successfully constructed `pycanlib` `Message`. -/
structure Message where
  timestamp : ℚ
  device_id : Int
  payload : List Int
  dlc : Int
  flags : Int
deriving DecidableEq

/-- The per-element payload check of `Message.__init__`:
`item not in range(0, 2 ** 8)`. -/
def badPayloadElem (b : Int) : Bool := b < 0 || 256 ≤ b

/-- `Message.__init__` (including the `LogMessage.__init__` timestamp check
it starts with): each range check in source order, first failure raising. -/
def mkMessage (device_id : Int) (payload : List Int) (dlc : Int) (flags : Int)
    (timestamp : ℚ) : Except InvalidMessageParameterError Message :=
  if timestamp < 0 then
    Except.error ⟨"timestamp", toString timestamp, "timestamp value must be positive"⟩
  else if device_id < 0 ∨ 2 ^ 11 ≤ device_id then
    Except.error ⟨"device_id", toString device_id, "device_id must be in range [0, 2**11-1]"⟩
  else if 8 < payload.length then
    Except.error ⟨"payload", toString payload, "payload array length must be in range [0, 8]"⟩
  else if payload.any badPayloadElem then
    Except.error ⟨"payload", toString payload,
      "payload array element values must be in range [0, 2**8-1]"⟩
  else if dlc < 0 ∨ 9 ≤ dlc then
    Except.error ⟨"dlc", toString dlc, "DLC value must be in range [0, 8]"⟩
  else if flags < 0 ∨ 2 ^ 16 ≤ flags then
    Except.error ⟨"flags", toString flags, "flags value must be in range [0, 2**16-1]"⟩
  else
    Except.ok ⟨timestamp, device_id, payload, dlc, flags⟩

/-- The in-range condition for every field, as `Message.__init__` checks it. -/
def validParams (device_id : Int) (payload : List Int) (dlc : Int) (flags : Int)
    (timestamp : ℚ) : Prop :=
  0 ≤ timestamp ∧ (0 ≤ device_id ∧ device_id < 2 ^ 11) ∧ payload.length ≤ 8
    ∧ (∀ b ∈ payload, 0 ≤ b ∧ b < 256) ∧ (0 ≤ dlc ∧ dlc ≤ 8)
    ∧ (0 ≤ flags ∧ flags < 2 ^ 16)

end Pycanlib

/-- C2 (amended): for every field combination within the code's declared
ranges — `device_id` in the 11-bit range `[0, 2**11-1]`, payload of 0–8
byte values, `dlc` in `[0, 8]`, `flags` in `[0, 2**16-1]`, `timestamp ≥ 0` —
construction succeeds and every stored field equals its input; and whenever
some field is out of range, construction raises an
`InvalidMessageParameterError` naming an offending field together with its
value and the reason, never silently clamping. -/
theorem c2_message_validation (device_id : Int) (payload : List Int) (dlc flags : Int)
    (timestamp : ℚ) :
    (Pycanlib.validParams device_id payload dlc flags timestamp →
      Pycanlib.mkMessage device_id payload dlc flags timestamp
        = Except.ok ⟨timestamp, device_id, payload, dlc, flags⟩)
    ∧ (¬ Pycanlib.validParams device_id payload dlc flags timestamp →
      ∃ e, Pycanlib.mkMessage device_id payload dlc flags timestamp = Except.error e
        ∧ ((e = ⟨"timestamp", toString timestamp, "timestamp value must be positive"⟩
              ∧ timestamp < 0)
          ∨ (e = ⟨"device_id", toString device_id, "device_id must be in range [0, 2**11-1]"⟩
              ∧ (device_id < 0 ∨ 2 ^ 11 ≤ device_id))
          ∨ (e = ⟨"payload", toString payload, "payload array length must be in range [0, 8]"⟩
              ∧ 8 < payload.length)
          ∨ (e = ⟨"payload", toString payload,
                "payload array element values must be in range [0, 2**8-1]"⟩
              ∧ ∃ b ∈ payload, b < 0 ∨ 256 ≤ b)
          ∨ (e = ⟨"dlc", toString dlc, "DLC value must be in range [0, 8]"⟩
              ∧ (dlc < 0 ∨ 9 ≤ dlc))
          ∨ (e = ⟨"flags", toString flags, "flags value must be in range [0, 2**16-1]"⟩
              ∧ (flags < 0 ∨ 2 ^ 16 ≤ flags)))) := by
  constructor
  · rintro ⟨h1, ⟨h2a, h2b⟩, h3, h4, ⟨h5a, h5b⟩, h6a, h6b⟩
    unfold Pycanlib.mkMessage
    rw [if_neg (not_lt.mpr h1),
      if_neg (not_or.mpr ⟨not_lt.mpr h2a, not_le.mpr h2b⟩),
      if_neg (not_lt.mpr h3),
      if_neg ?_,
      if_neg (not_or.mpr ⟨not_lt.mpr h5a, not_le.mpr (by omega)⟩),
      if_neg (not_or.mpr ⟨not_lt.mpr h6a, not_le.mpr h6b⟩)]
    simp only [List.any_eq_true, Pycanlib.badPayloadElem, not_exists]
    rintro b ⟨hb, hbad⟩
    have := h4 b hb
    simp only [Bool.or_eq_true, decide_eq_true_eq] at hbad
    omega
  · intro hnv
    by_cases h1 : timestamp < 0
    · exact ⟨_, by unfold Pycanlib.mkMessage; rw [if_pos h1], Or.inl ⟨rfl, h1⟩⟩
    by_cases h2 : device_id < 0 ∨ 2 ^ 11 ≤ device_id
    · refine ⟨_, ?_, Or.inr (Or.inl ⟨rfl, h2⟩)⟩
      unfold Pycanlib.mkMessage
      rw [if_neg h1, if_pos h2]
    by_cases h3 : 8 < payload.length
    · refine ⟨_, ?_, Or.inr (Or.inr (Or.inl ⟨rfl, h3⟩))⟩
      unfold Pycanlib.mkMessage
      rw [if_neg h1, if_neg h2, if_pos h3]
    by_cases h4 : payload.any Pycanlib.badPayloadElem
    · refine ⟨_, ?_, Or.inr (Or.inr (Or.inr (Or.inl ⟨rfl, ?_⟩)))⟩
      · unfold Pycanlib.mkMessage
        rw [if_neg h1, if_neg h2, if_neg h3, if_pos h4]
      · obtain ⟨b, hb, hbad⟩ := List.any_eq_true.mp h4
        refine ⟨b, hb, ?_⟩
        simpa [Pycanlib.badPayloadElem] using hbad
    by_cases h5 : dlc < 0 ∨ 9 ≤ dlc
    · refine ⟨_, ?_, Or.inr (Or.inr (Or.inr (Or.inr (Or.inl ⟨rfl, h5⟩))))⟩
      unfold Pycanlib.mkMessage
      rw [if_neg h1, if_neg h2, if_neg h3, if_neg h4, if_pos h5]
    by_cases h6 : flags < 0 ∨ 2 ^ 16 ≤ flags
    · refine ⟨_, ?_, Or.inr (Or.inr (Or.inr (Or.inr (Or.inr ⟨rfl, h6⟩))))⟩
      unfold Pycanlib.mkMessage
      rw [if_neg h1, if_neg h2, if_neg h3, if_neg h4, if_neg h5, if_pos h6]
    exfalso
    apply hnv
    refine ⟨not_lt.mp h1, by omega, by omega, ?_, by omega, by omega⟩
    intro b hb
    have : ¬ (Pycanlib.badPayloadElem b = true) := fun hbad => h4 (List.any_eq_true.mpr ⟨b, hb, hbad⟩)
    simp only [Pycanlib.badPayloadElem, Bool.or_eq_true, decide_eq_true_eq, not_or] at this
    omega

/-- C2 counterexample to the claim as stated: `2048 = 0x800` fits the
29-bit extended-id range the claim declares valid, yet `Message.__init__`
rejects it — the code accepts only the 11-bit standard range. -/
theorem c2_extended_id_counterexample :
    (2048 : Int) < 2 ^ 29
    ∧ Pycanlib.mkMessage 2048 [] 0 0 0
        = Except.error ⟨"device_id", "2048", "device_id must be in range [0, 2**11-1]"⟩ := by
  constructor
  · norm_num
  · unfold Pycanlib.mkMessage
    rw [if_neg (by norm_num), if_pos (by norm_num)]
    rfl

theorem c2_witness :
    Pycanlib.mkMessage 5 [1, 255] 2 3 0 = Except.ok ⟨0, 5, [1, 255], 2, 3⟩
    ∧ ∃ e, Pycanlib.mkMessage 2048 [] 0 0 0 = Except.error e
        ∧ e.parameter_name = "device_id" := by
  constructor
  · refine (c2_message_validation 5 [1, 255] 2 3 0).1 ?_
    refine ⟨le_refl 0, by norm_num, by norm_num, ?_, by norm_num, by norm_num⟩
    intro b hb
    simp only [List.mem_cons, List.not_mem_nil, or_false] at hb
    rcases hb with rfl | rfl <;> norm_num
  · have hnv : ¬ Pycanlib.validParams 2048 [] 0 0 0 := fun hv => absurd hv.2.1.2 (by norm_num)
    obtain ⟨e, he, hd⟩ := (c2_message_validation 2048 [] 0 0 0).2 hnv
    refine ⟨e, he, ?_⟩
    rcases hd with ⟨_, h⟩ | ⟨he2, _⟩ | ⟨_, h⟩ | ⟨_, h⟩ | ⟨_, h⟩ | ⟨_, h⟩
    · exact absurd h (by norm_num)
    · rw [he2]
    · simp at h
    · obtain ⟨b, hb, _⟩ := h
      simp at hb
    · exact absurd h (by norm_num)
    · exact absurd h (by norm_num)

namespace Pycanlib

/-! ## Handle registry deduplication (`src/pycanlib/CAN.py`)

`_Handle.__init__` validates the channel number against the channel count
CANLIB reports and the flags against the mask, then opens a CANLIB handle;
the CANLIB environment is embedded as the channel count plus the next handle
number `canOpenChannel` would return. `_get_handle` scans the registry for an
entry with the same channel and flags (the Python loop keeps the last match),
reuses it when found, and otherwise opens and registers a new handle. The
`kvSetNotifyCallback` call is an external driver side effect with no
registry-visible state and is not modelled. -/

/-- `InvalidBusParameterError` of `pycanlib/CAN.py`. -/
structure InvalidBusParameterError where
  parameter_name : String
  reason : String
deriving DecidableEq

/-- The registry-visible state of a `_Handle`: its channel, flags, and the
CANLIB handle number identifying the underlying open handle. -/
structure Handle where
  channel : Int
  flags : Nat
  canlib_handle : Nat
deriving DecidableEq

/-- The CANLIB driver state `_Handle.__init__` consults: the number of
channels and the next handle number a successful open returns. -/
structure CanlibEnv where
  num_channels : Int
  next_handle : Nat
deriving DecidableEq

/-- `_Handle.__init__`: reject a channel outside `range(0, num_channels)`,
reject flags outside the mask, else open (receiving a fresh handle number). -/
def mkHandle (env : CanlibEnv) (channel : Int) (flags : Nat) (flagsMask : Nat) :
    Except InvalidBusParameterError (Handle × CanlibEnv) :=
  if channel < 0 ∨ env.num_channels ≤ channel then
    Except.error ⟨"channel", "available channels on this system are in the range [0, n]"⟩
  else if flags &&& (0xFFFF - flagsMask) ≠ 0 then
    Except.error ⟨"flags", "must contain only the canOPEN_* flags listed in canlib.py"⟩
  else
    Except.ok (⟨channel, flags, env.next_handle⟩, ⟨env.num_channels, env.next_handle + 1⟩)

/-- The scan loop of `_get_handle`: iterate over the registry entries and
remember the (last) entry whose channel and flags both match. -/
def scanRegistry (registry : List (Nat × Handle)) (channel : Int) (flags : Nat) :
    Option Handle :=
  registry.foldl
    (fun acc kv => if kv.2.channel = channel ∧ kv.2.flags = flags then some kv.2 else acc)
    none

/-- Python dict assignment `registry[key] = handle`: overwrite an existing
key, else append. -/
def registryInsert (registry : List (Nat × Handle)) (k : Nat) (h : Handle) :
    List (Nat × Handle) :=
  if registry.any (fun kv => kv.1 == k) then
    registry.map (fun kv => if kv.1 == k then (k, h) else kv)
  else registry ++ [(k, h)]

/-- `_get_handle(channel_number, flags, registry)`: reuse a scanned match,
else open a new handle and register it under its CANLIB handle number. -/
def get_handle (env : CanlibEnv) (channel_number : Int) (flags : Nat) (flagsMask : Nat)
    (registry : List (Nat × Handle)) :
    Except InvalidBusParameterError (Handle × List (Nat × Handle) × CanlibEnv) :=
  match scanRegistry registry channel_number flags with
  | some h => Except.ok (h, registry, env)
  | none =>
    match mkHandle env channel_number flags flagsMask with
    | Except.error e => Except.error e
    | Except.ok (h, env2) =>
      Except.ok (h, registryInsert registry h.canlib_handle h, env2)

end Pycanlib

namespace BusModel

/-! ## BusABC transmit-path state (`src/can/bus.py`)

The state a `BusABC` instance owns: the listener list, the transmit queue
(`queue.Queue()` is unbounded, so `put_nowait` always succeeds), the
`_threads_running` event, and — for observing `_put_message` calls — the list
of messages handed to the backend. `write` enqueues with `put_nowait`;
`shutdown` clears the event; `tx_thread` loops on
`while False and self._threads_running.is_set()`. -/

/-- The `BusABC` state: listeners (as opaque callback ids), the transmit
queue, the `_threads_running` event, and the trace of `_put_message` calls. -/
structure BusState where
  listeners : List Nat
  tx_queue : List Can.Message
  threads_running : Bool
  transmitted : List Can.Message
deriving DecidableEq

/-- `BusABC.write`: `self._tx_queue.put_nowait(msg)` — unbounded queue, so
it appends and never raises. -/
def write (s : BusState) (msg : Can.Message) : BusState :=
  { s with tx_queue := s.tx_queue ++ [msg] }

/-- `BusABC.shutdown`: `self._threads_running.clear()` and nothing else. -/
def shutdown (s : BusState) : BusState :=
  { s with threads_running := false }

/-- The inner drain loop of `tx_thread`
(`while not self._tx_queue.empty(): ... self._put_message(tx_msg)`). -/
def drain_tx (s : BusState) : BusState :=
  { s with tx_queue := [], transmitted := s.transmitted ++ s.tx_queue }

/-- One iteration of the `tx_thread` body. Were it ever entered, the inner
`if False and self.single_handle` (whose right operand is never evaluated)
would take its `else` branch and raise `queue.Empty`, which the surrounding
`except` swallows before the drain loop is reached — so even the body is a
no-op; the `if false` records that the drain loop is unreachable. -/
def tx_thread_body (s : BusState) : BusState :=
  if false then drain_tx s else s

/-- `BusABC.tx_thread`: `while False and self._threads_running.is_set()`
with the body above; `fuel` bounds the loop iterations considered. -/
def tx_thread : Nat → BusState → BusState
  | 0, s => s
  | fuel + 1, s =>
    if false && s.threads_running then tx_thread fuel (tx_thread_body s) else s

end BusModel

namespace CanCore

/-! ## BufferedReader (`src/can/CAN.py`)

`queue.Queue.get(timeout=t)` on the listener's buffer: an element already
buffered is returned immediately; on an empty buffer the call blocks until
the next arrival or the timeout, whichever is first. The embedding returns
the result together with the time spent blocked; `arrival` is the next
message to be put into the buffer (at the given time offset), if any. -/

/-- Semantics of Python `queue.Queue.get(timeout)`: `(result, time blocked)`. -/
def queue_get {α : Type} (buffer : List α) (timeout : ℚ) (arrival : Option (ℚ × α)) :
    Option α × ℚ :=
  match buffer with
  | m :: _ => (some m, 0)
  | [] =>
    match arrival with
    | some (t, m) => if t ≤ timeout then (some m, t) else (none, timeout)
    | none => (none, timeout)

/-- `BufferedReader.get_message` as the code defines it: no parameter; it
calls `self.buffer.get(timeout=0.5)` and returns `None` on `queue.Empty`. -/
def get_message {α : Type} (buffer : List α) (arrival : Option (ℚ × α)) :
    Option α × ℚ :=
  queue_get buffer (1 / 2) arrival

/-- The claim's reading of the interface, for comparison: a
`get_message(timeout)` that blocks up to a caller-supplied timeout. -/
def get_message_per_claim {α : Type} (timeout : ℚ) (buffer : List α)
    (arrival : Option (ℚ × α)) : Option α × ℚ :=
  queue_get buffer timeout arrival

end CanCore

namespace Socketcand

/-! ## connect_to_server (`src/can/interfaces/socketcand_bus.py`)

The retry loop is embedded over an environment trace: `t0` is the
`time.time()` reading (in seconds) taken before the loop, and each event is
one `s.connect` attempt — whether it succeeded, and the `time.time()`
reading taken after it failed. The code works in milliseconds (`* 1000`)
with a fixed `timeout_ms = 10000`. -/

/-- Outcome of the retry loop: connected, raised `TimeoutError`, or the
finite trace ended with the loop still running. -/
inductive ConnectResult where
  | connected
  | timedOut
  | traceEnded
deriving DecidableEq

/-- The `while now < end_time` retry loop of `connect_to_server`. -/
def connect_loop (end_time : ℚ) : ℚ → List (Bool × ℚ) → ConnectResult
  | now, [] =>
    if now < end_time then ConnectResult.traceEnded else ConnectResult.timedOut
  | now, (ok, t) :: rest =>
    if now < end_time then
      if ok then ConnectResult.connected else connect_loop end_time (t * 1000) rest
    else ConnectResult.timedOut

/-- `connect_to_server`: `now = time.time() * 1000`,
`end_time = now + 10000`, then the retry loop. -/
def connect_to_server (t0 : ℚ) (events : List (Bool × ℚ)) : ConnectResult :=
  connect_loop (t0 * 1000 + 10000) (t0 * 1000) events

end Socketcand

/-- C5: the loop guard of `BusABC.tx_thread` is the constant-false
conjunction `False and self._threads_running.is_set()`, so for every fuel
bound and every bus state the thread body never executes: `tx_thread`
returns with the state unchanged, dequeues nothing from the transmit queue
and never calls `_put_message`. -/
theorem c5_tx_thread_dead_code (fuel : Nat) (s : BusModel.BusState) :
    BusModel.tx_thread fuel s = s
    ∧ (BusModel.tx_thread fuel s).tx_queue = s.tx_queue
    ∧ (BusModel.tx_thread fuel s).transmitted = s.transmitted := by
  refine ⟨?_, ?_, ?_⟩ <;> cases fuel <;> rfl

/-- C10: `BusABC.shutdown` only clears the threads-running event — the
listener list and the transmit queue are unchanged; `write` after shutdown
still succeeds and enqueues onto the transmit queue; and a second `shutdown`
leaves the state unchanged. -/
theorem c10_shutdown_frame (s : BusModel.BusState) (msg : Can.Message) :
    (BusModel.shutdown s).listeners = s.listeners
    ∧ (BusModel.shutdown s).tx_queue = s.tx_queue
    ∧ (BusModel.shutdown s).threads_running = false
    ∧ BusModel.write (BusModel.shutdown s) msg
        = { BusModel.shutdown s with tx_queue := s.tx_queue ++ [msg] }
    ∧ BusModel.shutdown (BusModel.shutdown s) = BusModel.shutdown s :=
  ⟨rfl, rfl, rfl, rfl, rfl⟩

/-! ## connect_to_server retry behaviour -/

lemma connect_loop_elapsed (end_time now : ℚ) (events : List (Bool × ℚ))
    (h : ¬ now < end_time) :
    Socketcand.connect_loop end_time now events = Socketcand.ConnectResult.timedOut := by
  cases events with
  | nil => simp [Socketcand.connect_loop, h]
  | cons e rest =>
    obtain ⟨ok, t⟩ := e
    simp [Socketcand.connect_loop, h]

lemma connect_loop_timeout (end_time : ℚ) :
    ∀ (events : List (Bool × ℚ)) (now : ℚ),
      (∀ e ∈ events, e.1 = false) →
      (∃ e ∈ events, end_time ≤ e.2 * 1000) →
      Socketcand.connect_loop end_time now events = Socketcand.ConnectResult.timedOut := by
  intro events
  induction events with
  | nil =>
    intro now _ hex
    obtain ⟨e, he, _⟩ := hex
    simp at he
  | cons head rest ih =>
    intro now hfail hex
    obtain ⟨ok, t⟩ := head
    have hok : ok = false := hfail (ok, t) (List.mem_cons_self _ _)
    subst hok
    by_cases hnow : now < end_time
    · have hstep : Socketcand.connect_loop end_time now ((false, t) :: rest)
          = Socketcand.connect_loop end_time (t * 1000) rest := by
        simp [Socketcand.connect_loop, hnow]
      rw [hstep]
      rcases hex with ⟨e, he, hle⟩
      rcases List.mem_cons.mp he with heq | hmem
      · have hlate : end_time ≤ t * 1000 := by
          rw [heq] at hle
          exact hle
        exact connect_loop_elapsed end_time (t * 1000) rest (not_lt.mpr hlate)
      · exact ih (t * 1000) (fun x hx => hfail x (List.mem_cons_of_mem _ hx)) ⟨e, hmem, hle⟩
    · exact connect_loop_elapsed end_time now _ hnow

lemma connect_loop_success (end_time : ℚ) :
    ∀ (pre : List (Bool × ℚ)) (now t : ℚ) (post : List (Bool × ℚ)),
      (∀ e ∈ pre, e.1 = false ∧ e.2 * 1000 < end_time) → now < end_time →
      Socketcand.connect_loop end_time now (pre ++ (true, t) :: post)
        = Socketcand.ConnectResult.connected := by
  intro pre
  induction pre with
  | nil =>
    intro now t post _ hnow
    simp [Socketcand.connect_loop, hnow]
  | cons head rest ih =>
    intro now t post hpre hnow
    obtain ⟨ok, tr⟩ := head
    have h1 : ok = false := (hpre (ok, tr) (List.mem_cons_self _ _)).1
    have h2 : tr * 1000 < end_time := (hpre (ok, tr) (List.mem_cons_self _ _)).2
    subst h1
    have hstep : Socketcand.connect_loop end_time now (((false, tr) :: rest) ++ (true, t) :: post)
        = Socketcand.connect_loop end_time (tr * 1000) (rest ++ (true, t) :: post) := by
      simp [Socketcand.connect_loop, hnow]
    rw [hstep]
    exact ih (tr * 1000) t post (fun x hx => hpre x (List.mem_cons_of_mem _ hx)) h2

/-- C7: over any environment trace in which every connection attempt fails
and the clock passes the fixed 10000 ms deadline, `connect_to_server` keeps
retrying and then raises the distinguishable `TimeoutError`; and whenever
the trace contains a successful attempt preceded only by failed attempts
observed inside the 10-second window, it returns connected, without error. -/
theorem c7_connect_retry_timeout (t0 : ℚ) (events : List (Bool × ℚ)) :
    ((∀ e ∈ events, e.1 = false) →
      (∃ e ∈ events, t0 * 1000 + 10000 ≤ e.2 * 1000) →
      Socketcand.connect_to_server t0 events = Socketcand.ConnectResult.timedOut)
    ∧ (∀ (pre : List (Bool × ℚ)) (t : ℚ) (post : List (Bool × ℚ)),
        events = pre ++ (true, t) :: post →
        (∀ e ∈ pre, e.1 = false ∧ e.2 * 1000 < t0 * 1000 + 10000) →
        Socketcand.connect_to_server t0 events = Socketcand.ConnectResult.connected) := by
  constructor
  · intro hfail hex
    exact connect_loop_timeout _ events _ hfail hex
  · intro pre t post hev hpre
    rw [hev]
    exact connect_loop_success _ pre _ t post hpre (by linarith)

theorem c7_witness :
    Socketcand.connect_to_server 0 [(false, 20)] = Socketcand.ConnectResult.timedOut
    ∧ Socketcand.connect_to_server 0 [(false, 1), (true, 2)]
        = Socketcand.ConnectResult.connected := by
  constructor
  · refine (c7_connect_retry_timeout 0 [(false, 20)]).1 ?_ ?_
    · intro e he
      simp only [List.mem_singleton] at he
      rw [he]
    · exact ⟨(false, 20), by simp, by norm_num⟩
  · refine (c7_connect_retry_timeout 0 [(false, 1), (true, 2)]).2 [(false, 1)] 2 [] rfl ?_
    intro e he
    simp only [List.mem_singleton] at he
    rw [he]
    exact ⟨rfl, by norm_num⟩

/-! ## BufferedReader.get_message -/

/-- C8 counterexample to the claim as stated: the code's `get_message` takes
no timeout argument — it always waits at most the fixed 0.5 s. With an empty
buffer and the next message arriving at 1 s, a caller-supplied timeout of
2 s (the claim's reading) would return that message after 1 s, but the code
returns `None` after 0.5 s. -/
theorem c8_fixed_timeout_counterexample :
    CanCore.get_message ([] : List Nat) (some (1, 7)) = (none, 1 / 2)
    ∧ CanCore.get_message_per_claim 2 ([] : List Nat) (some (1, 7)) = (some 7, 1)
    ∧ CanCore.get_message ([] : List Nat) (some (1, 7))
        ≠ CanCore.get_message_per_claim 2 ([] : List Nat) (some (1, 7)) := by
  have h1 : CanCore.get_message ([] : List Nat) (some (1, 7)) = (none, 1 / 2) := by
    show (if (1 : ℚ) ≤ 1 / 2 then (some 7, (1 : ℚ)) else (none, 1 / 2)) = (none, 1 / 2)
    rw [if_neg (by norm_num)]
  have h2 : CanCore.get_message_per_claim 2 ([] : List Nat) (some (1, 7)) = (some 7, 1) := by
    show (if (1 : ℚ) ≤ 2 then (some 7, (1 : ℚ)) else (none, 2)) = (some 7, 1)
    rw [if_pos (by norm_num)]
  refine ⟨h1, h2, ?_⟩
  rw [h1, h2]
  intro hcontra
  exact Option.noConfusion (congrArg Prod.fst hcontra)

/-- C8 (amended): `BufferedReader.get_message` takes no timeout argument; it
blocks the calling thread for at most the fixed 0.5-second timeout and, when
no message arrives before that expires, returns the no-message result `None`
rather than raising an error. -/
theorem c8_get_message_amended {α : Type} (buffer : List α) (arrival : Option (ℚ × α)) :
    (CanCore.get_message buffer arrival).2 ≤ 1 / 2
    ∧ (buffer = [] → (∀ t m, arrival = some (t, m) → 1 / 2 < t) →
        CanCore.get_message buffer arrival = (none, 1 / 2)) := by
  cases buffer with
  | cons m rest =>
    exact ⟨by norm_num [CanCore.get_message, CanCore.queue_get],
      fun h => absurd h (by simp)⟩
  | nil =>
    cases arrival with
    | none =>
      exact ⟨by norm_num [CanCore.get_message, CanCore.queue_get], fun _ _ => rfl⟩
    | some tm =>
      obtain ⟨t, m⟩ := tm
      by_cases ht : t ≤ 1 / 2
      · constructor
        · show (if t ≤ (1 : ℚ) / 2 then (some m, t) else (none, 1 / 2)).2 ≤ 1 / 2
          rw [if_pos ht]
          exact ht
        · intro _ hlate
          exact absurd (hlate t m rfl) (not_lt.mpr ht)
      · constructor
        · show (if t ≤ (1 : ℚ) / 2 then (some m, t) else (none, 1 / 2)).2 ≤ 1 / 2
          rw [if_neg ht]
        · intro _ _
          show (if t ≤ (1 : ℚ) / 2 then (some m, t) else (none, 1 / 2)) = (none, 1 / 2)
          rw [if_neg ht]

theorem c8_amended_witness :
    CanCore.get_message ([] : List Nat) (some (1, 5)) = (none, 1 / 2) :=
  (c8_get_message_amended [] (some (1, 5))).2 rfl (by
    intro t m h
    cases h
    norm_num)

/-! ## Handle registry deduplication -/

lemma scanRegistry_append_single (registry : List (Nat × Pycanlib.Handle))
    (k : Nat) (h : Pycanlib.Handle) (channel : Int) (flags : Nat) :
    Pycanlib.scanRegistry (registry ++ [(k, h)]) channel flags
      = if h.channel = channel ∧ h.flags = flags then some h
        else Pycanlib.scanRegistry registry channel flags := by
  unfold Pycanlib.scanRegistry
  rw [List.foldl_append]
  rfl

/-- C6: handle acquisition is idempotent per registry — when a `_get_handle`
call succeeds with handle `h1` and registry `r1`, a second call with the same
`(channel, flags)` pair against that registry returns the very same handle
and leaves the registry unchanged (it reuses the registered handle instead of
opening a new one); and when the pair was unregistered, the first call opened
a handle new to the registry and appended it. Hence two `Bus` instances built
with the same channel and flags share the read handle and the write handle. -/
theorem c6_get_handle_idempotent (env : Pycanlib.CanlibEnv) (channel : Int)
    (flags flagsMask : Nat) (registry : List (Nat × Pycanlib.Handle))
    (h1 : Pycanlib.Handle) (r1 : List (Nat × Pycanlib.Handle)) (env1 : Pycanlib.CanlibEnv)
    (hfresh : ∀ kv ∈ registry,
      kv.1 < env.next_handle ∧ kv.2.canlib_handle < env.next_handle)
    (hcall : Pycanlib.get_handle env channel flags flagsMask registry
      = Except.ok (h1, r1, env1)) :
    Pycanlib.get_handle env1 channel flags flagsMask r1 = Except.ok (h1, r1, env1)
    ∧ (Pycanlib.scanRegistry registry channel flags = none →
        (∀ kv ∈ registry, kv.2 ≠ h1)
        ∧ r1 = registry ++ [(h1.canlib_handle, h1)]) := by
  unfold Pycanlib.get_handle at hcall
  cases hscan : Pycanlib.scanRegistry registry channel flags with
  | some h =>
    rw [hscan] at hcall
    simp only [Except.ok.injEq, Prod.mk.injEq] at hcall
    obtain ⟨hh, hr, henv⟩ := hcall
    subst hh
    subst hr
    subst henv
    constructor
    · unfold Pycanlib.get_handle
      rw [hscan]
    · intro hnone
      exact Option.noConfusion hnone
  | none =>
    rw [hscan] at hcall
    cases hmk : Pycanlib.mkHandle env channel flags flagsMask with
    | error e =>
      rw [hmk] at hcall
      exact Except.noConfusion hcall
    | ok hv =>
      obtain ⟨h, env2⟩ := hv
      rw [hmk] at hcall
      simp only [Except.ok.injEq, Prod.mk.injEq] at hcall
      obtain ⟨hh, hr, henv⟩ := hcall
      unfold Pycanlib.mkHandle at hmk
      by_cases hc1 : channel < 0 ∨ env.num_channels ≤ channel
      · rw [if_pos hc1] at hmk
        exact Except.noConfusion hmk
      rw [if_neg hc1] at hmk
      by_cases hc2 : flags &&& (0xFFFF - flagsMask) ≠ 0
      · rw [if_pos hc2] at hmk
        exact Except.noConfusion hmk
      rw [if_neg hc2] at hmk
      simp only [Except.ok.injEq, Prod.mk.injEq] at hmk
      obtain ⟨hhval, henv2⟩ := hmk
      have hchan : h.channel = channel := by rw [← hhval]
      have hflags : h.flags = flags := by rw [← hhval]
      have hnum : h.canlib_handle = env.next_handle := by rw [← hhval]
      have hins : Pycanlib.registryInsert registry h.canlib_handle h
          = registry ++ [(h.canlib_handle, h)] := by
        unfold Pycanlib.registryInsert
        rw [if_neg]
        simp only [List.any_eq_true, beq_iff_eq, not_exists]
        rintro kv ⟨hkv, hk⟩
        have := (hfresh kv hkv).1
        rw [hnum] at hk
        omega
      have hr1 : r1 = registry ++ [(h.canlib_handle, h)] := by
        rw [← hr, hins]
      constructor
      · unfold Pycanlib.get_handle
        have hscan1 : Pycanlib.scanRegistry r1 channel flags = some h := by
          rw [hr1, scanRegistry_append_single, if_pos ⟨hchan, hflags⟩]
        rw [hscan1, hh]
      · intro _
        constructor
        · intro kv hkv hkv2
          have hlt := (hfresh kv hkv).2
          rw [hkv2, ← hh, hnum] at hlt
          exact lt_irrefl _ hlt
        · rw [hr1, ← hh]

theorem c6_witness :
    Pycanlib.get_handle ⟨1, 1⟩ 0 0 0xFFFF [(0, ⟨0, 0, 0⟩)]
      = Except.ok (⟨0, 0, 0⟩, [(0, ⟨0, 0, 0⟩)], ⟨1, 1⟩) :=
  (c6_get_handle_idempotent ⟨1, 0⟩ 0 0 0xFFFF [] ⟨0, 0, 0⟩ [(0, ⟨0, 0, 0⟩)] ⟨1, 1⟩
    (by simp) rfl).1
